import Mathlib

/-!
Verification development for the stylusless userstyle-to-CSS pipeline
(`src/index.ts`, two implementation variants).  The TypeScript source is
shallowly embedded: JS strings become `String`/`List Char`, the css-tree
syntax tree becomes an explicit inductive tree, fallible operations return
`Option`/`Except`, and the external csstree parse/match results appear as
explicit inputs.
-/

namespace Stylusless

/-! ## String replacement (`replaceAll`, src/index.ts lines 11-15)

The source builds `new RegExp(find.replace(/[-\/\\^$*+?.()|[\]{}]/g, "\\$&"), "g")`
and calls `str.replace(pattern, replace)`.  The escape set covers every
regex metacharacter, so the pattern matches exactly the literal `find`
string.  The replacement string, however, is passed to JS `String.replace`
unescaped, so JS `GetSubstitution` is applied to it: `$$` yields `$`,
`$&` the matched substring, a dollar followed by backtick the text before
the match, a dollar followed by an apostrophe the text after the match;
any other `$`-sequence is literal (the pattern has no capture groups).  -/

/-- JS `GetSubstitution` for a replacement template with zero capture
groups: `matched` is the matched substring, `seen` the part of the subject
before the match, `suf` the part after the match. -/
def substTemplate (matched seen suf : List Char) : List Char → List Char
  | [] => []
  | [c] => [c]
  | c :: d :: rest2 =>
    if c = '$' then
      if d = '$' then '$' :: substTemplate matched seen suf rest2
      else if d = '&' then matched ++ substTemplate matched seen suf rest2
      else if d = Char.ofNat 96 then seen ++ substTemplate matched seen suf rest2
      else if d = Char.ofNat 39 then suf ++ substTemplate matched seen suf rest2
      else c :: substTemplate matched seen suf (d :: rest2)
    else c :: substTemplate matched seen suf (d :: rest2)

/-- JS global `String.replace` with a fully-escaped (literal) pattern
`find` and replacement template `repl`, scanning the subject left to
right. `seen` accumulates the original characters before the current
position; `fuel` bounds the recursion (any `fuel > rem.length` is exact). -/
def jsReplaceAllFuel (find repl : List Char) : Nat → List Char → List Char → List Char
  | 0, _, rem => rem
  | _ + 1, seen, [] => if find = [] then substTemplate [] seen [] repl else []
  | fuel + 1, seen, c :: t =>
    if find ≠ [] ∧ find.isPrefixOf (c :: t) then
      substTemplate find seen ((c :: t).drop find.length) repl
        ++ jsReplaceAllFuel find repl fuel (seen ++ find) ((c :: t).drop find.length)
    else if find = [] then
      substTemplate [] seen (c :: t) repl ++ c :: jsReplaceAllFuel find repl fuel (seen ++ [c]) t
    else
      c :: jsReplaceAllFuel find repl fuel (seen ++ [c]) t

/-- Embedding of `replaceAll` (src/index.ts lines 11-15). -/
def replaceAll (str find repl : String) : String :=
  ⟨jsReplaceAllFuel find.data repl.data (str.data.length + 1) [] str.data⟩

/-- Modelled from the spec: "Replacement is literal-substring
(regex-escaped) global replace" — every occurrence of `find` is replaced
by the replacement string itself, character for character. -/
def litReplaceAllFuel (find repl : List Char) : Nat → List Char → List Char
  | 0, rem => rem
  | _ + 1, [] => if find = [] then repl else []
  | fuel + 1, c :: t =>
    if find ≠ [] ∧ find.isPrefixOf (c :: t) then
      repl ++ litReplaceAllFuel find repl fuel ((c :: t).drop find.length)
    else if find = [] then repl ++ c :: litReplaceAllFuel find repl fuel t
    else c :: litReplaceAllFuel find repl fuel t

/-- Literal-substring global replacement, as the spec describes it. -/
def litReplaceAll (str find repl : String) : String :=
  ⟨litReplaceAllFuel find.data repl.data (str.data.length + 1) str.data⟩

/-! ## Color decomposition (`colorHexToRGB`, src/index.ts lines 17-23)

`parseInt(hexColor.substr(1))` with no radix: skip JS whitespace, read an
optional sign, then either a `0x`/`0X` hexadecimal literal or a run of
decimal digits; no digits at all gives `NaN` (modelled as `none`).
`NaN >> 16` is `0` in JS because `ToInt32(NaN) = 0`. -/

def isJsWhitespace (c : Char) : Bool :=
  c = ' ' ∨ c = '\t' ∨ c = '\n' ∨ c = '\r' ∨ c = '\x0b' ∨ c = '\x0c'

def digitVal (c : Char) : Option Nat :=
  if '0' ≤ c ∧ c ≤ '9' then some (c.toNat - '0'.toNat) else none

def hexVal (c : Char) : Option Nat :=
  if '0' ≤ c ∧ c ≤ '9' then some (c.toNat - '0'.toNat)
  else if 'a' ≤ c ∧ c ≤ 'f' then some (c.toNat - 'a'.toNat + 10)
  else if 'A' ≤ c ∧ c ≤ 'F' then some (c.toNat - 'A'.toNat + 10)
  else none

/-- Greedily consume leading digits (per `dv`) in the given radix;
`none` when not even one digit is present (JS `NaN`). -/
def takeNum (dv : Char → Option Nat) (radix : Nat) : List Char → Option Nat → Option Nat
  | [], acc => acc
  | c :: rest, acc =>
    match dv c with
    | some d => takeNum dv radix rest (some ((acc.getD 0) * radix + d))
    | none => acc

/-- JS `parseInt(s)` with no radix argument, on exact integers
(JS doubles are exact on every realistic color string). -/
def parseIntNoRadix (l : List Char) : Option Int :=
  let l1 := l.dropWhile isJsWhitespace
  let sgn : Int := match l1 with | '-' :: _ => -1 | _ => 1
  let l2 := match l1 with | '-' :: t => t | '+' :: t => t | _ => l1
  match l2 with
  | '0' :: x :: t =>
    if x = 'x' ∨ x = 'X' then (takeNum hexVal 16 t none).map (fun n => sgn * n)
    else (takeNum digitVal 10 l2 none).map (fun n => sgn * n)
  | _ => (takeNum digitVal 10 l2 none).map (fun n => sgn * n)

/-- JS `ToInt32`: wrap into `[-2^31, 2^31)`. -/
def toInt32 (n : Int) : Int := (n + 2147483648) % 4294967296 - 2147483648

/-- Embedding of `colorHexToRGB` (src/index.ts lines 17-23):
`value >> 16 & 0xff`, `value >> 8 & 0xff`, `value & 0xff` on the
`ToInt32` of the parse (`0` for `NaN`), formatted `"R, G, B"`. -/
def colorHexToRGB (hexColor : String) : String :=
  let value := parseIntNoRadix (hexColor.data.drop 1)
  let v := toInt32 (value.getD 0)
  let r := (v / 65536 : Int) % 256
  let g := (v / 256 : Int) % 256
  let b := v % 256
  toString r ++ ", " ++ toString g ++ ", " ++ toString b

/-! ## Variables (`valueForVariable`, `assignVariables`, src/index.ts lines 25-71) -/

structure VarOption where
  name : String
  label : String
  value : String
deriving DecidableEq

/-- A usercss-meta variable record (see src/usercss-meta.d.ts). -/
structure Variable where
  type : String
  default : String
  options : Option (List VarOption)
  units : Option String
deriving DecidableEq

/-- Embedding of `valueForVariable` (src/index.ts lines 25-39).
For `select`/`dropdown`/`image` the source evaluates
`variable.options.find(o => o.name === variable.default).value`; when no
option matches (or `options` is absent) the `.value` access throws — the
spec's `VariableResolutionError` — modelled as `none`. -/
def valueForVariable (v : Variable) : Option String :=
  if v.type = "select" ∨ v.type = "dropdown" ∨ v.type = "image" then
    ((v.options.getD []).find? (fun o => o.name = v.default)).map (fun o => o.value)
  else if v.type = "number" ∨ v.type = "range" then
    some (v.default ++ v.units.getD "")
  else some v.default

/-- The parsed metadata header: optional preprocessor plus the declared
variables in insertion order (JS `Object.keys` order for string keys). -/
structure Metadata where
  preprocessor : Option String
  vars : List (String × Variable)

/-- Embedding of `assignVariables` (src/index.ts lines 41-71).
`Except.error` models the thrown `Error("preprocessor not implemented")`
and the `TypeError` thrown inside `valueForVariable`. -/
def assignVariables (styleText : String) (m : Metadata) : Except String String :=
  match m.preprocessor with
  | none => .ok styleText
  | some p =>
    if p = "default" then .ok styleText
    else if p = "uso" then
      m.vars.foldl (fun acc nv => do
        let style ← acc
        match valueForVariable nv.2 with
        | none => .error "variable resolution failed"
        | some val =>
          let newStyle := replaceAll style ("/*[[" ++ nv.1 ++ "]]*/") val
          if nv.2.type = "color" then
            pure (replaceAll newStyle ("/*[[" ++ nv.1 ++ "-rgb]]*/") (colorHexToRGB val))
          else pure newStyle) (.ok styleText)
    else .error "preprocessor not implemented"

/-! ## Escape repair (`escapeCSSRegExp`, src/index.ts lines 83-91) -/

/-- `regexp.includes(String.raw "\\\\")` — two consecutive backslashes
anywhere in the string. -/
def containsDoubleBackslash : List Char → Bool
  | a :: b :: rest => (a = '\\' && b = '\\') || containsDoubleBackslash (b :: rest)
  | _ => false

/-- JS global replace of `/([^\\]\\)/g` by `"$1\\"`: each match is a
non-backslash character followed by a backslash; the scan resumes after
the match. -/
def escReplace : List Char → List Char
  | a :: b :: rest =>
    if a ≠ '\\' ∧ b = '\\' then a :: '\\' :: '\\' :: escReplace rest
    else a :: escReplace (b :: rest)
  | l => l

/-- Embedding of `escapeCSSRegExp` (src/index.ts lines 83-91). -/
def escapeCSSRegExp (s : String) : String :=
  if containsDoubleBackslash s.data then s else ⟨escReplace s.data⟩

/-- The claim's description of the fix pass: walk the string and emit an
extra backslash after every backslash whose immediate predecessor exists
and is not a backslash.  `pnb` records whether the previous character
exists and is a non-backslash. -/
def specEscapeAux (pnb : Bool) : List Char → List Char
  | [] => []
  | c :: rest =>
    if c = '\\' ∧ pnb = true then c :: '\\' :: specEscapeAux false rest
    else c :: specEscapeAux (if c = '\\' then false else true) rest

/-- Insertion of an extra backslash after every occurrence of a
non-backslash character immediately followed by a backslash. -/
def specEscape (l : List Char) : List Char := specEscapeAux false l

/-! ## Textual priority escalation (`adjustPriority`, src/index.ts lines 384-385)

`styleText.replace(/(: ?[^\!]*?);\n/g, "$1 !important;\n")`.  A match is a
colon, an optional space, then the lazy-shortest run of non-`!` characters
up to a `;` immediately followed by a newline.  Because the optional space
is itself a non-`!` character, the full match (and hence the replacement
output) is independent of whether the space branch is taken, so the scan
after the colon is: walk forward, fail on `!`, succeed at the first
`;`-then-`\n`. -/

/-- Scan the characters after a colon for the lazy `[^\!]*?;\n` part of
the `adjustPriority` pattern: `some (v, r)` means the value chars `v` are
followed by `;\n` and then `r`; `none` means a `!` or the end of input
intervenes. -/
def scanValue : List Char → Option (List Char × List Char)
  | [] => none
  | c :: rest =>
    if c = '!' then none
    else if c = ';' ∧ rest.head? = some '\n' then some ([], rest.tail)
    else match scanValue rest with
      | some (v, r) => some (c :: v, r)
      | none => none

/-- The tail of the replacement text `" !important;\n"` after its leading
space and exclamation mark. -/
def impTail : List Char := "important;\n".data

/-- One global-replace pass of `/(: ?[^\!]*?);\n/g` with `"$1 !important;\n"`:
at a colon whose scan succeeds, emit the captured text, the insertion and
the pattern's own `;\n`, and resume after the match; otherwise copy one
character and continue. -/
def adjustPriorityAux (l : List Char) : List Char :=
  match l with
  | [] => []
  | c :: rest =>
    if c = ':' then
      match h : scanValue rest with
      | some (v, r) => c :: (v ++ ' ' :: '!' :: (impTail ++ adjustPriorityAux r))
      | none => c :: adjustPriorityAux rest
    else c :: adjustPriorityAux rest
termination_by l.length
decreasing_by
  · have key : ∀ (l : List Char) (p : List Char × List Char),
        scanValue l = some p → p.2.length < l.length := by
      intro l
      induction l with
      | nil => intro p hp; simp [scanValue] at hp
      | cons a t iht =>
        intro p hp
        rw [scanValue] at hp
        split at hp
        · simp at hp
        · split at hp
          · injection hp with hp'
            subst hp'
            simp only [List.length_cons]
            have := List.length_tail t
            omega
          · split at hp
            · next v' r' hsv =>
              injection hp with hp'
              subst hp'
              have := iht _ hsv
              simp only [List.length_cons] at this ⊢
              omega
            · simp at hp
    simp only [List.length_cons]
    have := key rest (v, r) h
    simp only [List.length_cons] at this
    omega
  · simp
  · simp

/-- Embedding of `adjustPriority` (src/index.ts lines 384-385). -/
def adjustPriority (styleText : String) : String :=
  ⟨adjustPriorityAux styleText.data⟩

/-! ## The css-tree structural model

`validateAndTransformCSS` (src/index.ts lines 98-200) drives the external
css-tree library: parse with positions, a `Declaration` walk that consults
`lexer.matchDeclaration`, an importance-escalation walk, an
`AtrulePrelude` walk for `regexp()` repair, and `csstree.generate`.  The
tree below embeds exactly the node shape those walks inspect; the results
of the external parser and lexer (parse errors, per-declaration match
errors) are explicit inputs. -/

structure Loc where
  line : Nat
  column : Nat
deriving DecidableEq

/-- The error object produced by `csstree.lexer.matchDeclaration`, with
the fields the walk at src/index.ts lines 111-146 reads.  String fields
are `""` and numeric fields `0` when the JS property is absent/falsy,
matching the `||` fallback chains.  `errString` is `String(error)` as
interpolated by `stringifyError`. -/
structure MatchError where
  name : String
  rawMessage : String
  message : String
  errString : String
  line : Nat
  column : Nat
deriving DecidableEq

/-- A css-tree `Declaration` node together with the outcome of
`lexer.matchDeclaration` on it (`none` when the match has no error). -/
structure Declaration where
  property : String
  value : String
  important : Bool
  loc : Loc
  matchError : Option MatchError
deriving DecidableEq

/-- The first child of a prelude `Function` node: either a `String` node
(value and location) or any other node kind (serialized text and
location). -/
inductive PreludeArg where
  | str (value : String) (loc : Loc)
  | nonString (text : String) (loc : Loc)
deriving DecidableEq

/-- A child of an `AtrulePrelude`: a `Function` node (name and first
child) or any other node (serialized text). -/
inductive PreludeChild where
  | fn (name : String) (arg : PreludeArg)
  | raw (text : String)
deriving DecidableEq

mutual
/-- A css-tree node as inspected by the walks: declarations, rules, and
at-rules with a prelude and a block. -/
inductive CSSNode where
  | decl (d : Declaration)
  | rule (selector : String) (block : CSSNodeList)
  | atrule (name : String) (prelude : List PreludeChild) (block : CSSNodeList)
/-- A list of css-tree nodes (a stylesheet or a block). -/
inductive CSSNodeList where
  | nil
  | cons (head : CSSNode) (tail : CSSNodeList)
end

/-- The declaration-walk error report (src/index.ts lines 111-146):
filter to `SyntaxMatchError`/`SyntaxReferenceError`, apply the
`rawMessage || message || error` fallback and the "Mismatch" rewording,
take `error.line || node.loc.start.line` (likewise column), and format
via `stringifyError`. -/
def declarationErrors (d : Declaration) : List String :=
  match d.matchError with
  | none => []
  | some e =>
    let message0 := if e.rawMessage ≠ "" then e.rawMessage
      else if e.message ≠ "" then e.message else e.errString
    if e.name ≠ "SyntaxMatchError" ∧ e.name ≠ "SyntaxReferenceError" then []
    else
      let message := if message0 = "Mismatch" then "Invalid value for `" ++ d.property ++ "`"
        else message0
      let eline := if e.line ≠ 0 then e.line else d.loc.line
      let ecol := if e.column ≠ 0 then e.column else d.loc.column
      [toString eline ++ ":" ++ toString ecol ++ " (" ++ d.property ++ "): "
        ++ message ++ "\n" ++ e.errString]

mutual
/-- Errors collected by the `visit: "Declaration"` walk, in document
(depth-first) order. -/
def collectDeclErrorsNode : CSSNode → List String
  | .decl d => declarationErrors d
  | .rule _ block => collectDeclErrorsList block
  | .atrule _ _ block => collectDeclErrorsList block
def collectDeclErrorsList : CSSNodeList → List String
  | .nil => []
  | .cons n ns => collectDeclErrorsNode n ++ collectDeclErrorsList ns
end

mutual
/-- The escalation walk (src/index.ts lines 155-160): set every
declaration's `important` flag to `true`. -/
def markImportantNode : CSSNode → CSSNode
  | .decl d => .decl { d with important := true }
  | .rule sel block => .rule sel (markImportantList block)
  | .atrule n pl block => .atrule n pl (markImportantList block)
def markImportantList : CSSNodeList → CSSNodeList
  | .nil => .nil
  | .cons n ns => .cons (markImportantNode n) (markImportantList ns)
end

/-- The body of the `AtrulePrelude` walk (src/index.ts lines 176-195) for
one prelude child: only `regexp(...)` functions are touched; a non-String
first argument yields an error and no mutation; a String argument is
escape-repaired, with a warning when the value changed. -/
def fixPreludeChild (c : PreludeChild) : PreludeChild × List String × List String :=
  match c with
  | .raw t => (.raw t, [], [])
  | .fn fname arg =>
    if fname = "regexp" then
      match arg with
      | .nonString t aloc =>
        (.fn fname (.nonString t aloc),
         [toString aloc.line ++ ":" ++ toString aloc.column
           ++ ": regexp() argument must be a String"], [])
      | .str v aloc =>
        let escaped := escapeCSSRegExp v
        (.fn fname (.str escaped aloc), [],
         if v ≠ escaped then
           [toString aloc.line ++ ":" ++ toString aloc.column
             ++ ": Fixed escaping in regexp(" ++ v ++ ")"]
         else [])
    else (.fn fname arg, [], [])

def fixPrelude : List PreludeChild → List PreludeChild × List String × List String
  | [] => ([], [], [])
  | c :: cs =>
    let a := fixPreludeChild c
    let b := fixPrelude cs
    (a.1 :: b.1, a.2.1 ++ b.2.1, a.2.2 ++ b.2.2)

mutual
/-- The `visit: "AtrulePrelude"` walk (src/index.ts lines 167-197):
preludes of at-rules named exactly `document` or `-moz-document` are
processed, everything else is left alone; returns the rewritten node with
the errors and warnings pushed, in document order. -/
def fixNode : CSSNode → CSSNode × List String × List String
  | .decl d => (.decl d, [], [])
  | .rule sel block =>
    let r := fixList block
    (.rule sel r.1, r.2.1, r.2.2)
  | .atrule aname pl block =>
    let p := if aname = "-moz-document" ∨ aname = "document" then fixPrelude pl
      else (pl, [], [])
    let r := fixList block
    (.atrule aname p.1 r.1, p.2.1 ++ r.2.1, p.2.2 ++ r.2.2)
def fixList : CSSNodeList → CSSNodeList × List String × List String
  | .nil => (.nil, [], [])
  | .cons n ns =>
    let a := fixNode n
    let b := fixList ns
    (.cons a.1 b.1, a.2.1 ++ b.2.1, a.2.2 ++ b.2.2)
end

/-- Modelled from the spec: serialization of one prelude child by
`csstree.generate` ("Serialize the (possibly mutated) tree back to CSS
text"); a String argument is emitted inside double quotes. -/
def generatePreludeChild : PreludeChild → String
  | .raw t => t
  | .fn fname arg =>
    fname ++ "(" ++ (match arg with
      | .str v _ => "\"" ++ v ++ "\""
      | .nonString t _ => t) ++ ")"

def generatePrelude : List PreludeChild → String
  | [] => ""
  | [c] => generatePreludeChild c
  | c :: c2 :: cs => generatePreludeChild c ++ " " ++ generatePrelude (c2 :: cs)

mutual
/-- Modelled from the spec: `csstree.generate` — compact serialization,
with a declaration's importance emitted as ` !important` (the spec's §8
end-to-end example fixes this formatting). -/
def generateNode : CSSNode → String
  | .decl d => d.property ++ ":" ++ d.value ++ (if d.important then " !important" else "")
  | .rule sel block => sel ++ "\x7b" ++ generateList block ++ "\x7d"
  | .atrule aname pl block =>
    "@" ++ aname ++ " " ++ generatePrelude pl ++ "\x7b" ++ generateList block ++ "\x7d"
/-- Serialization of a node list; consecutive declarations are separated
by `;`. -/
def generateList : CSSNodeList → String
  | .nil => ""
  | .cons n .nil => generateNode n
  | .cons n (.cons m tail) =>
    generateNode n ++ (match n with | .decl _ => ";" | _ => "")
      ++ generateList (.cons m tail)
end

/-- What `csstree.parse(css, { positions: true, onParseError: ... })`
produces: the tree plus the parse errors pushed by `onParseError`, in
order. -/
structure ParseOutput where
  ast : CSSNodeList
  parseErrors : List String

structure ValidateResult where
  errors : List String
  warnings : List String
  transformed : String
deriving DecidableEq

/-- Embedding of `validateAndTransformCSS` (src/index.ts lines 98-200),
with the external css-tree parse supplied as `parsed`.  Parse errors and
declaration-match errors short-circuit with the original text; otherwise
the escalation and regexp-fix walks run and the mutated tree is
serialized — with any regexp-argument errors appended to the same
`errors` list that is returned. -/
def validateAndTransformCSS (css : String) (parsed : ParseOutput) : ValidateResult :=
  let errors := parsed.parseErrors ++ collectDeclErrorsList parsed.ast
  if errors = [] then
    let escalated := markImportantList parsed.ast
    let fixed := fixList escalated
    { errors := errors ++ fixed.2.1, warnings := fixed.2.2,
      transformed := generateList fixed.1 }
  else
    { errors := errors, warnings := [], transformed := css }

mutual
/-- Whether the tree contains, inside the prelude of an at-rule named
`document` or `-moz-document`, a `regexp(...)` function whose first
argument is not a String. -/
def hasBadRegexpNode : CSSNode → Bool
  | .decl _ => false
  | .rule _ block => hasBadRegexpList block
  | .atrule aname pl block =>
    ((aname = "-moz-document" ∨ aname = "document") ∧
      pl.any (fun c => match c with
        | .fn fname (.nonString _ _) => fname = "regexp"
        | _ => false)) || hasBadRegexpList block
def hasBadRegexpList : CSSNodeList → Bool
  | .nil => false
  | .cons n ns => hasBadRegexpNode n || hasBadRegexpList ns
end

/-! ## Concrete instances used by witnesses and counterexamples -/

/-- Modelled from the spec: the css-tree parse of `a{color:red;}` — one
rule with selector `a` and one `color:red` declaration that matches the
`color` property grammar (no match error), and no parse errors. -/
def parseColorRed : ParseOutput :=
  ⟨.cons (.rule "a" (.cons (.decl ⟨"color", "red", false, ⟨1, 3⟩, none⟩) .nil)) .nil, []⟩

/-- A parse output carrying one low-level parse error. -/
def c1Parse : ParseOutput := ⟨.nil, ["1:1: Unexpected input"]⟩

def badArgCss : String := "@-moz-document regexp(foo)\x7ba\x7bcolor:red\x7d\x7d"

/-- Modelled from the spec: the css-tree parse of `badArgCss` — a
`-moz-document` at-rule whose prelude holds `regexp(foo)` with a
non-String first argument (a raw identifier), over a block with one valid
rule; no parse errors, no declaration-match errors. -/
def badArgParse : ParseOutput :=
  ⟨.cons (.atrule "-moz-document" [.fn "regexp" (.nonString "foo" ⟨1, 23⟩)]
      (.cons (.rule "a" (.cons (.decl ⟨"color", "red", false, ⟨1, 29⟩, none⟩) .nil)) .nil)) .nil,
    []⟩

/-- A `select` variable whose default matches its second option. -/
def c7Var : Variable := ⟨"select", "b", some [⟨"a", "la", "va"⟩, ⟨"b", "lb", "vb"⟩], none⟩

/-- A `uso` metadata block with one text variable resolving to `"$$"`. -/
def usoDollarMeta : Metadata := ⟨some "uso", [("v", ⟨"text", "$$", none, none⟩)]⟩

/-! ## Claim C1: validation errors short-circuit -/

/-- C1: whenever the parse pass or the declaration-grammar-matching pass
collects at least one error, `validateAndTransformCSS` returns those
errors with `transformed` exactly equal to the original input (no
importance escalation, no regexp escape repair) and an empty warnings
list. -/
theorem c1_validation_errors_short_circuit (css : String) (parsed : ParseOutput)
    (h : parsed.parseErrors ≠ [] ∨ collectDeclErrorsList parsed.ast ≠ []) :
    (validateAndTransformCSS css parsed).transformed = css ∧
    (validateAndTransformCSS css parsed).warnings = [] ∧
    (validateAndTransformCSS css parsed).errors
      = parsed.parseErrors ++ collectDeclErrorsList parsed.ast := by
  have hne : ¬(parsed.parseErrors ++ collectDeclErrorsList parsed.ast = []) := by
    rcases h with h | h <;> simp only [List.append_eq_nil, not_and] <;> intro h1 <;> tauto
  unfold validateAndTransformCSS
  rw [if_neg hne]
  exact ⟨rfl, rfl, rfl⟩

theorem c1_witness :
    (c1Parse.parseErrors ≠ [] ∨ collectDeclErrorsList c1Parse.ast ≠ []) ∧
    ((validateAndTransformCSS "a\x7bcolor:red" c1Parse).transformed = "a\x7bcolor:red" ∧
     (validateAndTransformCSS "a\x7bcolor:red" c1Parse).warnings = [] ∧
     (validateAndTransformCSS "a\x7bcolor:red" c1Parse).errors
       = c1Parse.parseErrors ++ collectDeclErrorsList c1Parse.ast) :=
  ⟨Or.inl (by decide),
   c1_validation_errors_short_circuit "a\x7bcolor:red" c1Parse (Or.inl (by decide))⟩

/-! ## Claim C3: characterization of `escapeCSSRegExp` -/

theorem escReplace_eq_specEscapeAux :
    ∀ (l : List Char) (p : Bool), (∀ c t, l = c :: t → c = '\\' → p = false) →
      escReplace l = specEscapeAux p l := by
  intro l
  induction l using escReplace.induct with
  | case1 a b rest hab ih =>
    intro p hp
    obtain ⟨ha, hb⟩ := hab
    rw [escReplace, if_pos ⟨ha, hb⟩]
    rw [specEscapeAux, if_neg (by intro hx; exact ha hx.1), if_neg ha]
    rw [specEscapeAux, if_pos ⟨hb, rfl⟩]
    rw [ih false (by intro c t _ _; rfl)]
    rw [hb]
  | case2 a b rest hab ih =>
    intro p hp
    rw [escReplace, if_neg hab]
    have hcond : ¬(a = '\\' ∧ p = true) := by
      rintro ⟨ha, hptrue⟩
      rw [hp a (b :: rest) rfl ha] at hptrue
      exact Bool.false_ne_true hptrue
    rw [specEscapeAux, if_neg hcond]
    congr 1
    apply ih
    intro c t hct hc
    injection hct with hbc _
    subst hbc
    have ha : a = '\\' := by
      by_contra hna
      exact hab ⟨hna, hc⟩
    rw [if_pos ha]
  | case3 l hne =>
    intro p hp
    cases l with
    | nil => rfl
    | cons c t =>
      cases t with
      | cons b u => exact (hne c b u rfl).elim
      | nil =>
        have hcond : ¬(c = '\\' ∧ p = true) := by
          rintro ⟨hc, hptrue⟩
          rw [hp c [] rfl hc] at hptrue
          exact Bool.false_ne_true hptrue
        rw [specEscapeAux, if_neg hcond]
        rfl

/-- C3: `escapeCSSRegExp` returns its input unchanged when the input
contains two consecutive backslashes, and otherwise returns the input
with an extra backslash inserted after every occurrence of a
non-backslash character immediately followed by a backslash, all other
characters unchanged. -/
theorem c3_escapeCSSRegExp_characterization (s : String) :
    escapeCSSRegExp s = if containsDoubleBackslash s.data then s else ⟨specEscape s.data⟩ := by
  unfold escapeCSSRegExp specEscape
  split
  · rfl
  · exact congrArg String.mk (escReplace_eq_specEscapeAux s.data false (by intro c t _ _; rfl))

/-! ## Claim C4: the leading-backslash case -/

/-- C4: the code evaluated at the claim's inputs.  On the two-character
string backslash-`w` the fix regex `([^\\]\\)` finds no match (a match
needs a preceding non-backslash character, absent at the start of the
string), so the function returns the input unchanged — contradicting the
claimed result backslash-backslash-`w` and the function's own doc-comment
example.  On inputs containing a double backslash the function returns
the input unchanged, as claimed. -/
theorem c4_escape_examples :
    escapeCSSRegExp "\\w" = "\\w" ∧
    escapeCSSRegExp "\\w" ≠ "\\\\w" ∧
    escapeCSSRegExp "\\\\w" = "\\\\w" := by
  refine ⟨rfl, ?_, rfl⟩
  decide

/-! ## Claim C5: structure of `colorHexToRGB` -/

/-- C5: for every input string, `colorHexToRGB` drops the first
character, parses the remainder with the source's `parseInt` semantics,
extracts red as bits 16-23, green as bits 8-15 and blue as bits 0-7
(each masked to 8 bits), and formats them as `"R, G, B"` in decimal,
each component lying in `[0, 255]`. -/
theorem c5_colorHexToRGB_components (s : String) :
    ∃ r g b : Int,
      (0 ≤ r ∧ r ≤ 255) ∧ (0 ≤ g ∧ g ≤ 255) ∧ (0 ≤ b ∧ b ≤ 255) ∧
      r = (toInt32 ((parseIntNoRadix (s.data.drop 1)).getD 0) / 65536) % 256 ∧
      g = (toInt32 ((parseIntNoRadix (s.data.drop 1)).getD 0) / 256) % 256 ∧
      b = toInt32 ((parseIntNoRadix (s.data.drop 1)).getD 0) % 256 ∧
      colorHexToRGB s = toString r ++ ", " ++ toString g ++ ", " ++ toString b := by
  have hb : ∀ x : Int, 0 ≤ x % 256 ∧ x % 256 ≤ 255 := by
    intro x
    constructor
    · exact Int.emod_nonneg x (by norm_num)
    · have := Int.emod_lt_of_pos x (show (0 : Int) < 256 by norm_num)
      omega
  exact ⟨_, _, _, hb _, hb _, hb _, rfl, rfl, rfl, rfl⟩

/-! ## Claim C10: unparseable remainders give "0, 0, 0" -/

/-- C10: when the remainder after dropping the first character does not
begin with a parseable number (JS `parseInt` returns `NaN`), the value
defaults to `0` through `ToInt32`, and `colorHexToRGB` returns exactly
`"0, 0, 0"`. -/
theorem c10_unparseable_gives_zero (s : String)
    (h : parseIntNoRadix (s.data.drop 1) = none) :
    colorHexToRGB s = "0, 0, 0" := by
  unfold colorHexToRGB
  rw [h]
  rfl

theorem c10_witness :
    parseIntNoRadix ("#ffffff".data.drop 1) = none ∧ colorHexToRGB "#ffffff" = "0, 0, 0" :=
  ⟨by decide, c10_unparseable_gives_zero "#ffffff" (by decide)⟩

/-! ## Claim C7: option lookup for select/dropdown/image variables -/

/-- C7: for a variable of type `select`, `dropdown` or `image`,
resolution returns the `value` of the option whose `name` equals the
variable's `default`, and fails (the thrown `TypeError`, the spec's
VariableResolutionError, modelled as `none`) when no option's name equals
the default. -/
theorem c7_option_lookup (v : Variable)
    (h : v.type = "select" ∨ v.type = "dropdown" ∨ v.type = "image") :
    (∀ opt : VarOption,
      (v.options.getD []).find? (fun o => o.name = v.default) = some opt →
        valueForVariable v = some opt.value) ∧
    ((∀ o ∈ v.options.getD [], o.name ≠ v.default) → valueForVariable v = none) := by
  constructor
  · intro opt hfind
    unfold valueForVariable
    rw [if_pos h, hfind]
    rfl
  · intro hnone
    unfold valueForVariable
    rw [if_pos h]
    have hfind : (v.options.getD []).find? (fun o => o.name = v.default) = none := by
      rw [List.find?_eq_none]
      intro o ho
      simp only [decide_eq_true_eq]
      exact hnone o ho
    rw [hfind]
    rfl

theorem c7_witness :
    (c7Var.type = "select" ∨ c7Var.type = "dropdown" ∨ c7Var.type = "image") ∧
    valueForVariable c7Var = some "vb" :=
  ⟨Or.inl rfl,
   (c7_option_lookup c7Var (Or.inl rfl)).1 ⟨"b", "lb", "vb"⟩ (by decide)⟩

/-! ## Claim C9: end-to-end on `a{color:red;}` -/

/-- C9: the full pipeline on `a{color:red;}` with the preprocessor absent
or `"default"`: variable assignment is the identity, and validation
produces no errors, no warnings, and `a{color:red !important}`. -/
theorem c9_end_to_end :
    assignVariables "a\x7bcolor:red;\x7d" ⟨none, []⟩ = .ok "a\x7bcolor:red;\x7d" ∧
    assignVariables "a\x7bcolor:red;\x7d" ⟨some "default", []⟩ = .ok "a\x7bcolor:red;\x7d" ∧
    validateAndTransformCSS "a\x7bcolor:red;\x7d" parseColorRed
      = ⟨[], [], "a\x7bcolor:red !important\x7d"⟩ :=
  ⟨rfl, rfl, by decide⟩

/-! ## Claim C6: substitution is not always literal -/

/-- C6 as stated is false: a resolved value containing `$$` is not
substituted character for character — JS `String.replace` interprets `$$`
in the replacement as a single `$`. -/
theorem c6_counterexample :
    assignVariables "x /*[[v]]*/ y" usoDollarMeta = .ok "x $ y" ∧
    ("x $ y" : String) ≠ "x $$ y" := by
  constructor
  · rfl
  · decide

theorem substTemplate_no_dollar (m p s : List Char) :
    ∀ t : List Char, '$' ∉ t → substTemplate m p s t = t := by
  intro t
  induction t with
  | nil => intro; rfl
  | cons c rest ih =>
    intro h
    have hc : c ≠ '$' := by
      intro hc; exact h (by rw [hc]; exact List.mem_cons_self _ _)
    have hrest : '$' ∉ rest := fun hm => h (List.mem_cons_of_mem _ hm)
    cases rest with
    | nil => rfl
    | cons d u =>
      rw [substTemplate, if_neg hc, ih hrest]

theorem jsReplaceAllFuel_no_dollar (find repl : List Char) (hrepl : '$' ∉ repl) :
    ∀ (fuel : Nat) (seen rem : List Char),
      jsReplaceAllFuel find repl fuel seen rem = litReplaceAllFuel find repl fuel rem := by
  intro fuel
  induction fuel with
  | zero => intro seen rem; rfl
  | succ n ih =>
    intro seen rem
    cases rem with
    | nil =>
      rw [jsReplaceAllFuel, litReplaceAllFuel]
      by_cases h2 : find = []
      · rw [if_pos h2, if_pos h2, substTemplate_no_dollar _ _ _ _ hrepl]
      · rw [if_neg h2, if_neg h2]
    | cons c t =>
      rw [jsReplaceAllFuel, litReplaceAllFuel]
      by_cases h1 : find ≠ [] ∧ find.isPrefixOf (c :: t)
      · rw [if_pos h1, if_pos h1, substTemplate_no_dollar _ _ _ _ hrepl, ih]
      · rw [if_neg h1, if_neg h1]
        by_cases h2 : find = []
        · rw [if_pos h2, if_pos h2, substTemplate_no_dollar _ _ _ _ hrepl, ih]
        · rw [if_neg h2, if_neg h2, ih]

/-- C6 amended: the substitution performed through `replaceAll` is a
literal-substring global replacement — every occurrence of the
placeholder replaced by exactly the replacement string — provided the
replacement (the resolved value) contains no `$` character. -/
theorem c6_amended_literal_replacement (str find repl : String) (h : '$' ∉ repl.data) :
    replaceAll str find repl = litReplaceAll str find repl := by
  unfold replaceAll litReplaceAll
  rw [jsReplaceAllFuel_no_dollar find.data repl.data h]

theorem c6_amended_witness :
    '$' ∉ ("red" : String).data ∧
    replaceAll "a /*[[v]]*/ b /*[[v]]*/" "/*[[v]]*/" "red"
      = litReplaceAll "a /*[[v]]*/ b /*[[v]]*/" "/*[[v]]*/" "red" :=
  ⟨by decide, c6_amended_literal_replacement _ _ _ (by decide)⟩

/-! ## Claim C2: the regexp-argument error does not short-circuit -/

/-- C2 as stated is false: at `badArgCss` the RegexpArgumentError is
recorded in the errors list, yet `transformed` is the serialization of
the escalated tree, not the original input — a non-empty errors list does
not imply `transformed` equals the input. -/
theorem c2_counterexample :
    (validateAndTransformCSS badArgCss badArgParse).errors
      = ["1:23: regexp() argument must be a String"] ∧
    (validateAndTransformCSS badArgCss badArgParse).transformed ≠ badArgCss ∧
    (validateAndTransformCSS badArgCss badArgParse).transformed
      = "@-moz-document regexp(foo)\x7ba\x7bcolor:red !important\x7d\x7d" := by
  refine ⟨by decide, ?_, by decide⟩
  decide

theorem fixPrelude_errors_of_bad (pl : List PreludeChild)
    (h : pl.any (fun c => match c with
        | .fn fname (.nonString _ _) => fname = "regexp"
        | _ => false) = true) :
    (fixPrelude pl).2.1 ≠ [] := by
  induction pl with
  | nil => simp at h
  | cons c cs ih =>
    simp only [List.any_cons, Bool.or_eq_true] at h
    rcases h with h | h
    · cases c with
      | raw t => simp at h
      | fn fname arg =>
        cases arg with
        | str v aloc => simp at h
        | nonString t aloc =>
          simp only [decide_eq_true_eq] at h
          subst h
          simp [fixPrelude, fixPreludeChild]
    · have hcs := ih h
      simp only [fixPrelude, ne_eq, List.append_eq_nil, not_and]
      intro _
      exact hcs

mutual
theorem fixNode_errors_of_bad : ∀ n : CSSNode,
    hasBadRegexpNode n = true → (fixNode n).2.1 ≠ []
  | .decl d => by intro h; simp [hasBadRegexpNode] at h
  | .rule sel block => by
    intro h
    rw [hasBadRegexpNode] at h
    have := fixList_errors_of_bad block h
    simpa [fixNode] using this
  | .atrule aname pl block => by
    intro h
    rw [hasBadRegexpNode] at h
    simp only [Bool.or_eq_true, decide_eq_true_eq] at h
    simp only [fixNode, ne_eq, List.append_eq_nil, not_and]
    rcases h with ⟨hname, hbad⟩ | h
    · intro hp
      exfalso
      apply fixPrelude_errors_of_bad pl hbad
      simpa [if_pos hname] using hp
    · intro _
      exact fixList_errors_of_bad block h
theorem fixList_errors_of_bad : ∀ l : CSSNodeList,
    hasBadRegexpList l = true → (fixList l).2.1 ≠ []
  | .nil => by intro h; simp [hasBadRegexpList] at h
  | .cons n ns => by
    intro h
    rw [hasBadRegexpList] at h
    simp only [Bool.or_eq_true] at h
    simp only [fixList, ne_eq, List.append_eq_nil, not_and]
    rcases h with h | h
    · intro hn
      exact absurd hn (fixNode_errors_of_bad n h)
    · intro _
      exact fixList_errors_of_bad ns h
end

mutual
theorem hasBadRegexp_markImportantNode : ∀ n : CSSNode,
    hasBadRegexpNode (markImportantNode n) = hasBadRegexpNode n
  | .decl d => rfl
  | .rule sel block => by
    simp only [markImportantNode, hasBadRegexpNode]
    exact hasBadRegexp_markImportantList block
  | .atrule aname pl block => by
    simp only [markImportantNode, hasBadRegexpNode]
    rw [hasBadRegexp_markImportantList block]
theorem hasBadRegexp_markImportantList : ∀ l : CSSNodeList,
    hasBadRegexpList (markImportantList l) = hasBadRegexpList l
  | .nil => rfl
  | .cons n ns => by
    simp only [markImportantList, hasBadRegexpList]
    rw [hasBadRegexp_markImportantNode n, hasBadRegexp_markImportantList ns]
end

/-- C2 amended: when parsing and declaration matching produce no errors,
a `regexp()` call with a non-String first argument inside a
`document`/`-moz-document` prelude is recorded in the returned errors
list, but it does not short-circuit: `validateAndTransformCSS` still
returns the serialization of the importance-escalated, regexp-fixed tree
as `transformed` (not the original input), together with the walk's
warnings. -/
theorem c2_amended_no_short_circuit (css : String) (parsed : ParseOutput)
    (h1 : parsed.parseErrors = []) (h2 : collectDeclErrorsList parsed.ast = [])
    (h3 : hasBadRegexpList parsed.ast = true) :
    (validateAndTransformCSS css parsed).errors ≠ [] ∧
    (validateAndTransformCSS css parsed).errors
      = (fixList (markImportantList parsed.ast)).2.1 ∧
    (validateAndTransformCSS css parsed).warnings
      = (fixList (markImportantList parsed.ast)).2.2 ∧
    (validateAndTransformCSS css parsed).transformed
      = generateList (fixList (markImportantList parsed.ast)).1 := by
  have hnil : parsed.parseErrors ++ collectDeclErrorsList parsed.ast = [] := by
    rw [h1, h2]
    rfl
  unfold validateAndTransformCSS
  rw [if_pos hnil, hnil]
  refine ⟨?_, by simp, rfl, rfl⟩
  simp only [List.nil_append]
  exact fixList_errors_of_bad _ ((hasBadRegexp_markImportantList parsed.ast).trans h3 ▸ rfl)

theorem c2_amended_witness :
    (badArgParse.parseErrors = [] ∧ collectDeclErrorsList badArgParse.ast = [] ∧
      hasBadRegexpList badArgParse.ast = true) ∧
    ((validateAndTransformCSS badArgCss badArgParse).errors ≠ [] ∧
     (validateAndTransformCSS badArgCss badArgParse).errors
       = (fixList (markImportantList badArgParse.ast)).2.1 ∧
     (validateAndTransformCSS badArgCss badArgParse).warnings
       = (fixList (markImportantList badArgParse.ast)).2.2 ∧
     (validateAndTransformCSS badArgCss badArgParse).transformed
       = generateList (fixList (markImportantList badArgParse.ast)).1) :=
  ⟨⟨rfl, by decide, by decide⟩,
   c2_amended_no_short_circuit badArgCss badArgParse rfl (by decide) (by decide)⟩

/-! ## Claim C8: idempotence of importance escalation

The structural strategy is idempotent because setting a Boolean flag
twice is setting it once.  The textual strategy is idempotent because a
successful replacement inserts `" !important"`, whose `!` blocks any
later match from reaching the same `;`-newline, and a failed scan stays
failed after the pass. -/

theorem adjustPriorityAux_nil : adjustPriorityAux [] = [] := by
  rw [adjustPriorityAux.eq_def]

theorem adjustPriorityAux_colon_some (rest v r : List Char)
    (h : scanValue rest = some (v, r)) :
    adjustPriorityAux (':' :: rest)
      = ':' :: (v ++ ' ' :: '!' :: (impTail ++ adjustPriorityAux r)) := by
  rw [adjustPriorityAux.eq_def]
  split
  · next x heq => exact absurd heq (by simp)
  · next x c2 rest2 heq =>
    injection heq with h1 h2
    subst h1
    subst h2
    rw [if_pos rfl]
    split
    · next v2 r2 heq2 =>
      rw [h] at heq2
      injection heq2 with heq3
      injection heq3 with h3 h4
      subst h3
      subst h4
      rfl
    · next heq2 =>
      rw [h] at heq2
      exact absurd heq2 (by simp)

theorem adjustPriorityAux_colon_none (rest : List Char) (h : scanValue rest = none) :
    adjustPriorityAux (':' :: rest) = ':' :: adjustPriorityAux rest := by
  rw [adjustPriorityAux.eq_def]
  split
  · next x heq => exact absurd heq (by simp)
  · next x c2 rest2 heq =>
    injection heq with h1 h2
    subst h1
    subst h2
    rw [if_pos rfl]
    split
    · next v2 r2 heq2 =>
      rw [h] at heq2
      exact absurd heq2 (by simp)
    · next heq2 => rfl

theorem adjustPriorityAux_other (c : Char) (rest : List Char) (hc : c ≠ ':') :
    adjustPriorityAux (c :: rest) = c :: adjustPriorityAux rest := by
  rw [adjustPriorityAux.eq_def]
  split
  · next x heq => exact absurd heq (by simp)
  · next x c2 rest2 heq =>
    injection heq with h1 h2
    subst h1
    subst h2
    rw [if_neg hc]

theorem adjustPriorityAux_head (l : List Char) :
    (adjustPriorityAux l).head? = l.head? := by
  cases l with
  | nil => rw [adjustPriorityAux_nil]
  | cons c rest =>
    by_cases hc : c = ':'
    · subst hc
      cases hsv : scanValue rest with
      | some p =>
        obtain ⟨v, r⟩ := p
        rw [adjustPriorityAux_colon_some rest v r hsv]
        rfl
      | none =>
        rw [adjustPriorityAux_colon_none rest hsv]
        rfl
    · rw [adjustPriorityAux_other c rest hc]
      rfl

theorem scanValue_shape : ∀ (l v r : List Char), scanValue l = some (v, r) →
    l = v ++ ';' :: '\n' :: r := by
  intro l
  induction l with
  | nil => intro v r h; simp [scanValue] at h
  | cons c rest ih =>
    intro v r h
    rw [scanValue] at h
    split at h
    · simp at h
    · split at h
      · next hsc =>
        obtain ⟨hc, hh⟩ := hsc
        cases rest with
        | nil => simp at hh
        | cons a t =>
          simp only [List.head?_cons, Option.some.injEq] at hh
          simp only [List.tail_cons, Option.some.injEq, Prod.mk.injEq] at h
          obtain ⟨hv, hr⟩ := h
          subst hc; subst hh; subst hr; subst hv
          rfl
      · split at h
        · next v' r' hsv =>
          simp only [Option.some.injEq, Prod.mk.injEq] at h
          obtain ⟨hv, hr⟩ := h
          subst hr; subst hv
          rw [ih _ _ hsv]
          rfl
        · simp at h

theorem scanValue_A_none : ∀ l : List Char, scanValue l = none →
    scanValue (adjustPriorityAux l) = none := by
  intro l
  induction l with
  | nil =>
    intro _
    rw [adjustPriorityAux_nil]
    rfl
  | cons c rest ih =>
    intro h
    rw [scanValue] at h
    by_cases hbang : c = '!'
    · subst hbang
      rw [adjustPriorityAux_other '!' rest (by decide)]
      rw [scanValue, if_pos rfl]
    · rw [if_neg hbang] at h
      by_cases hsemi : c = ';' ∧ rest.head? = some '\n'
      · rw [if_pos hsemi] at h
        simp at h
      · rw [if_neg hsemi] at h
        have hrest : scanValue rest = none := by
          cases hsv : scanValue rest with
          | some p => obtain ⟨v, r⟩ := p; rw [hsv] at h; simp at h
          | none => rfl
        by_cases hc : c = ':'
        · subst hc
          rw [adjustPriorityAux_colon_none rest hrest]
          rw [scanValue, if_neg (by decide), if_neg (by simp), ih hrest]
        · rw [adjustPriorityAux_other c rest hc]
          have hsemi2 : ¬(c = ';' ∧ (adjustPriorityAux rest).head? = some '\n') := by
            rw [adjustPriorityAux_head]
            exact hsemi
          rw [scanValue, if_neg hbang, if_neg hsemi2, ih hrest]

theorem scanValue_some_strong : ∀ (l v r : List Char), scanValue l = some (v, r) →
    (∀ y, scanValue (v ++ ' ' :: '!' :: y) = none) ∧
    (∀ X, adjustPriorityAux (v ++ ' ' :: '!' :: X)
        = v ++ ' ' :: '!' :: adjustPriorityAux X) := by
  intro l
  induction l with
  | nil => intro v r h; simp [scanValue] at h
  | cons c rest ih =>
    intro v r h
    rw [scanValue] at h
    by_cases hbang : c = '!'
    · rw [if_pos hbang] at h
      simp at h
    · rw [if_neg hbang] at h
      by_cases hsemi : c = ';' ∧ rest.head? = some '\n'
      · rw [if_pos hsemi] at h
        simp only [Option.some.injEq, Prod.mk.injEq] at h
        obtain ⟨hv, hr⟩ := h
        subst hv
        constructor
        · intro y
          rw [List.nil_append]
          rw [scanValue, if_neg (by decide), if_neg (by simp), scanValue, if_pos rfl]
        · intro X
          rw [List.nil_append]
          rw [adjustPriorityAux_other ' ' ('!' :: X) (by decide)]
          rw [adjustPriorityAux_other '!' X (by decide)]
          rw [List.nil_append]
      · rw [if_neg hsemi] at h
        cases hsv : scanValue rest with
        | none => rw [hsv] at h; simp at h
        | some p =>
          obtain ⟨v', r'⟩ := p
          rw [hsv] at h
          simp only [Option.some.injEq, Prod.mk.injEq] at h
          obtain ⟨hv, hr⟩ := h
          subst hr; subst hv
          obtain ⟨ha, hb⟩ := ih _ _ hsv
          have hhead : ∀ z : List Char,
              ¬(c = ';' ∧ (v' ++ ' ' :: '!' :: z).head? = some '\n') := by
            intro z
            cases v' with
            | nil => simp
            | cons d t =>
              simp only [List.cons_append, List.head?_cons, Option.some.injEq]
              rintro ⟨hc, hd⟩
              apply hsemi
              refine ⟨hc, ?_⟩
              rw [scanValue_shape rest _ _ hsv]
              rw [hd]
              rfl
          constructor
          · intro y
            rw [List.cons_append]
            rw [scanValue, if_neg hbang, if_neg (hhead y), ha y]
          · intro X
            rw [List.cons_append]
            by_cases hc : c = ':'
            · subst hc
              rw [adjustPriorityAux_colon_none _ (ha _)]
              rw [hb X]
              rw [List.cons_append]
            · rw [adjustPriorityAux_other _ _ hc, hb X]
              rw [List.cons_append]

theorem adjustPriorityAux_no_colon : ∀ (p X : List Char), (∀ c ∈ p, c ≠ ':') →
    adjustPriorityAux (p ++ X) = p ++ adjustPriorityAux X := by
  intro p X
  induction p with
  | nil => intro _; rfl
  | cons c t ih =>
    intro h
    rw [List.cons_append,
      adjustPriorityAux_other _ _ (h c (List.mem_cons_self _ _)),
      ih (fun d hd => h d (List.mem_cons_of_mem _ hd))]
    rfl

theorem adjustPriorityAux_idem : ∀ l : List Char,
    adjustPriorityAux (adjustPriorityAux l) = adjustPriorityAux l := by
  intro l
  induction l using adjustPriorityAux.induct with
  | case1 => rw [adjustPriorityAux_nil, adjustPriorityAux_nil]
  | case2 rest v r hsv ih =>
    obtain ⟨ha, hb⟩ := scanValue_some_strong rest v r hsv
    rw [adjustPriorityAux_colon_some rest v r hsv]
    rw [adjustPriorityAux_colon_none _ (ha (impTail ++ adjustPriorityAux r))]
    rw [hb (impTail ++ adjustPriorityAux r)]
    rw [adjustPriorityAux_no_colon impTail (adjustPriorityAux r) (by decide)]
    rw [ih]
  | case3 rest hsv ih =>
    rw [adjustPriorityAux_colon_none rest hsv]
    rw [adjustPriorityAux_colon_none _ (scanValue_A_none rest hsv)]
    rw [ih]
  | case4 c rest hc ih =>
    rw [adjustPriorityAux_other c rest hc]
    rw [adjustPriorityAux_other c _ hc]
    rw [ih]

mutual
theorem markImportantNode_idem : ∀ n : CSSNode,
    markImportantNode (markImportantNode n) = markImportantNode n
  | .decl d => rfl
  | .rule sel block => by
    simp only [markImportantNode]
    rw [markImportantList_idem block]
  | .atrule aname pl block => by
    simp only [markImportantNode]
    rw [markImportantList_idem block]
theorem markImportantList_idem : ∀ l : CSSNodeList,
    markImportantList (markImportantList l) = markImportantList l
  | .nil => rfl
  | .cons n ns => by
    simp only [markImportantList]
    rw [markImportantNode_idem n, markImportantList_idem ns]
end

/-- C8: importance escalation is idempotent in both strategies — the
textual `adjustPriority` satisfies `adjustPriority (adjustPriority s) =
adjustPriority s` for every string, and the structural walk that sets
every declaration's `important` flag to `true` yields the same tree when
run twice. -/
theorem c8_escalation_idempotent :
    (∀ s : String, adjustPriority (adjustPriority s) = adjustPriority s) ∧
    (∀ l : CSSNodeList, markImportantList (markImportantList l) = markImportantList l) := by
  constructor
  · intro s
    unfold adjustPriority
    exact congrArg String.mk (adjustPriorityAux_idem s.data)
  · exact markImportantList_idem

end Stylusless
